import Mathlib

/-!
Shallow embedding of `app.js` from the term-planner repository.

Timeline model: instants are natural numbers counting milliseconds of
wall-clock time in the fixed display zone (`Europe/London` in the source);
days are uniform spans of 86400000 ms.  Luxon operations map as follows:
`startOf('day')` rounds down to a day boundary, `endOf('day')` is the last
millisecond of the day, `plus({days: n})` adds `n * 86400000`, and
`toISODate()` is represented by the day index `t / 86400000` (the ISO
date-string rendering is a bijection on day indices).  `setZone(LONDON)` is
the identity here because the whole timeline is already wall-clock time in
the single display zone.

`termRange` works with Luxon wall-clock datetimes built by
`DateTime.fromObject`; those are embedded as explicit
year/month/day/millisecond-of-day tuples ordered lexicographically.

The recurrence iterator produced by `ICAL.Event.iterator()` is embedded as
a stream `Nat → Option Nat` of occurrence instants (`none` = rule
exhausted); the `while` loops of the source are embedded as structurally
recursive functions over an explicit amount of fuel (for the recurrence
loop) or over the distance to the loop bound (for the per-day loop).
-/

namespace TermPlanner

/-- One day in milliseconds (`24*3600*1000` in the source). -/
def dayMs : Nat := 86400000

/-- Luxon `t.startOf('day')`: round an instant down to its day boundary. -/
def startOfDay (t : Nat) : Nat := dayMs * (t / dayMs)

/-- Luxon `t.endOf('day')`: the last millisecond of the instant's day. -/
def endOfDay (t : Nat) : Nat := startOfDay t + (dayMs - 1)

/-- Luxon `t.toISODate()`, represented by the day index of the instant. -/
def toISODate (t : Nat) : Nat := t / dayMs

/-- A decoded `ICAL.Event` (one `vevent` subcomponent).  `isDate` is
`ev.startDate.isDate` (the all-day flag); `rrule` is `some` exactly when
`ev.isRecurring()`, carrying the occurrence stream of `ev.iterator()`;
`summary`, `location` and `uid` are `none` when the property is absent
(`null` in the source). -/
structure VEvent where
  isDate : Bool
  startDate : Nat
  endDate : Option Nat
  rrule : Option (Nat → Option Nat)
  summary : Option String
  location : Option String
  uid : Option String

/-- `isAllDayEvent` from `app.js`: the event participates only when its
start date is a pure date value. -/
def isAllDayEvent (ev : VEvent) : Bool := ev.isDate

/-- The effective end instant: `ev.endDate ? ev.endDate.toJSDate() :
new Date(+ev.startDate.toJSDate() + 24*3600*1000)`. -/
def effectiveEnd (ev : VEvent) : Nat := ev.endDate.getD (ev.startDate + dayMs)

/-- One Occurrence Record pushed onto `events` in `expandAllDayInstances`:
`{ date, title: ev.summary || '', location: ev.location || '',
uid: ev.uid || '' }`. -/
structure Record where
  date : Nat
  title : String
  location : String
  uid : String
deriving DecidableEq

/-- Build the record pushed for calendar day `d` of event `ev`. -/
def mkRecord (ev : VEvent) (d : Nat) : Record :=
  { date := d
    title := ev.summary.getD ""
    location := ev.location.getD ""
    uid := ev.uid.getD "" }

/-- The recurring-event loop of `expandAllDayInstances`:
`while ((next = iter.next())) { occ := ...; if (occ < rangeStart) continue;
if (occ > rangeEnd) break; events.push({date: occ.toISODate(), ...}) }`.
`i` is the position in the occurrence stream; `fuel` bounds the number of
iterator elements consumed (the source loop has no such bound; theorems
below show the result is independent of `fuel` once it is large enough). -/
def recurLoop (ev : VEvent) (iter : Nat → Option Nat) (rS rE : Nat) :
    Nat → Nat → List Record
  | 0, _ => []
  | fuel + 1, i =>
    match iter i with
    | none => []
    | some occ =>
      if occ < rS then recurLoop ev iter rS rE fuel (i + 1)
      else if rE < occ then []
      else mkRecord ev (toISODate occ) :: recurLoop ev iter rS rE fuel (i + 1)

/-- The non-recurring per-day loop of `expandAllDayInstances`:
`while (d < last) { events.push({date: d.toISODate(), ...});
d = d.plus({days: 1}); }`, written as structural recursion on `gas`; with
`gas = last - d` this computes the loop exactly (each iteration moves `d`
up by a full day, so at most `last - d` iterations happen). -/
def dayLoopAux (ev : VEvent) : Nat → Nat → Nat → List Record
  | 0, _, _ => []
  | gas + 1, d, last =>
    if d < last then mkRecord ev (toISODate d) :: dayLoopAux ev gas (d + dayMs) last
    else []

/-- The non-recurring per-day loop, started with sufficient gas. -/
def dayLoop (ev : VEvent) (d last : Nat) : List Record :=
  dayLoopAux ev (last - d) d last

/-- The per-event body of the `for (const ve of ...)` loop of
`expandAllDayInstances`.  `rS`/`rE` are the `rangeStart`/`rangeEnd`
computed once at the top of the function. -/
def expandEvent (fuel rS rE : Nat) (ev : VEvent) : List Record :=
  if isAllDayEvent ev = false then []
  else
    match ev.rrule with
    | some iter => recurLoop ev iter rS rE fuel 0
    | none =>
      let s := ev.startDate
      let e := effectiveEnd ev
      let d := max (startOfDay s) (startOfDay rS)
      let last := min e (rE + dayMs)
      dayLoop ev d last

/-- `expandAllDayInstances(icalText, start, end)` after parsing, operating
on the decoded event list.  `rangeStart = start.startOf('day')`,
`rangeEnd = end.endOf('day')`; the JS parameter `end` is called `stop`
here because `end` is reserved in Lean.  Records are accumulated by
pushing, hence the left fold with append. -/
def expandAllDayInstances (fuel : Nat) (events : List VEvent)
    (start stop : Nat) : List Record :=
  let rangeStart := startOfDay start
  let rangeEnd := endOfDay stop
  events.foldl (fun acc ev => acc ++ expandEvent fuel rangeStart rangeEnd ev) []

/-- The overlap test of `countMultiDayAllDayEvents`: the source skips an
event when `e <= start || s >= end.endOf('day')` (with
`s = startOf('day')` of the event start and `e` the effective end); this
is the negation of that skip condition. -/
def overlapsWindow (start stop : Nat) (ev : VEvent) : Bool :=
  !(decide (effectiveEnd ev ≤ start) || decide (endOfDay stop ≤ startOfDay ev.startDate))

/-- `countMultiDayAllDayEvents(icalText, start, end)` after parsing: skip
non-all-day events, skip recurring events, skip events failing the overlap
test, and count those with `e.diff(s, 'days').days > 1` (in milliseconds:
effective end minus start-of-day of the start exceeds one day). -/
def countMultiDayAllDayEvents (events : List VEvent) (start stop : Nat) : Nat :=
  events.foldl (fun multiDay ev =>
    if isAllDayEvent ev = false then multiDay
    else if ev.rrule.isSome = true then multiDay
    else if overlapsWindow start stop ev = false then multiDay
    else if dayMs < effectiveEnd ev - startOfDay ev.startDate then multiDay + 1
    else multiDay) 0

/-- A Luxon wall-clock datetime in the fixed display zone, as built by
`DateTime.fromObject({year, month, day}, {zone: LONDON})` and adjusted by
`startOf('day')` / `endOf('day')`. -/
structure LDateTime where
  year : Int
  month : Nat
  day : Nat
  msOfDay : Nat
deriving DecidableEq

/-- Luxon comparison of two wall-clock datetimes in the same zone:
lexicographic on (year, month, day, millisecond of day). -/
def ldtLe (a b : LDateTime) : Bool :=
  if a.year ≠ b.year then decide (a.year < b.year)
  else if a.month ≠ b.month then decide (a.month < b.month)
  else if a.day ≠ b.day then decide (a.day < b.day)
  else decide (a.msOfDay ≤ b.msOfDay)

/-- A month/day pair of the static term table. -/
structure MonthDay where
  month : Nat
  day : Nat
deriving DecidableEq

/-- One entry of the `TERMS` table: `{ start: {month, day}, end: {month,
day} }`; the `end` field is called `stop` because `end` is reserved. -/
structure TermDef where
  start : MonthDay
  stop : MonthDay
deriving DecidableEq

/-- Outcome of the JS property read `TERMS[termName]` on the plain object
literal `TERMS`: one of its three own properties, a truthy value inherited
from `Object.prototype` (a function or object, which therefore has no
usable `start`/`end` fields), or nothing (`undefined`, here `missing`). -/
inductive TermLookup where
  | own (t : TermDef)
  | inherited
  | missing

/-- The property names every plain object literal inherits from
`Object.prototype` (including the `__proto__` accessor), all of which
hold truthy function or object values. -/
def protoProps : List String :=
  ["constructor", "hasOwnProperty", "isPrototypeOf", "propertyIsEnumerable",
   "toLocaleString", "toString", "valueOf", "__proto__",
   "__defineGetter__", "__defineSetter__", "__lookupGetter__",
   "__lookupSetter__"]

/-- The static `TERMS` object of `app.js` with JS bracket-lookup
semantics: an own key wins; otherwise the prototype chain of the object
literal is consulted, so an `Object.prototype` member name yields a truthy
inherited value; every other name reads as `undefined`. -/
def TERMS (name : String) : TermLookup :=
  if name = "Michaelmas" then .own ⟨⟨9, 1⟩, ⟨12, 31⟩⟩
  else if name = "Lent" then .own ⟨⟨1, 1⟩, ⟨4, 30⟩⟩
  else if name = "Summer" then .own ⟨⟨5, 1⟩, ⟨8, 31⟩⟩
  else if name ∈ protoProps then .inherited
  else .missing

/-- The error thrown by `termRange`: `new Error("Unknown term: " + name)`;
the spec calls it `UnknownPeriod`. -/
structure UnknownPeriod where
  name : String
deriving DecidableEq

/-- `termRange(year, termName)`.  The `if (!t) throw` guard fires only on
`undefined`, not on a truthy prototype-chain hit.  For an own entry,
`fromObject` with no time fields yields midnight, so `startOf('day')`
leaves `msOfDay = 0` and `endOf('day')` yields the last millisecond of the
day.  For an inherited value `t`, `t.start` and `t.end` are `undefined`,
the spread `{year, ...undefined}` is `{year}`, and Luxon
`DateTime.fromObject({year})` defaults month and day to 1, giving the
interval [Jan 1 00:00, Jan 1 23:59:59.999] of the year. -/
def termRange (year : Int) (termName : String) :
    Except UnknownPeriod (LDateTime × LDateTime) :=
  match TERMS termName with
  | .missing => .error ⟨termName⟩
  | .own t =>
    .ok (⟨year, t.start.month, t.start.day, 0⟩,
         ⟨year, t.stop.month, t.stop.day, dayMs - 1⟩)
  | .inherited =>
    .ok (⟨year, 1, 1, 0⟩, ⟨year, 1, 1, dayMs - 1⟩)

/-- The `ParseError` of the spec: the exception raised by `ICAL.parse` on
malformed calendar text. -/
structure ParseError where
  msg : String
deriving DecidableEq

/-- `expandAllDayInstances(icalText, start, end)` including the parse
step.  The decoder (`ICAL.parse` plus `ICAL.Component`/`ICAL.Event`) is
the external ical.js collaborator, not part of this repository; its
outcome on the calendar text is embedded as an `Except` value.  A thrown
`ParseError` propagates out of the function before the `events` array is
built, so the error case carries no records. -/
def expandAllDayInstancesE (parsed : Except ParseError (List VEvent))
    (fuel start stop : Nat) : Except ParseError (List Record) :=
  match parsed with
  | .error err => .error err
  | .ok evs => .ok (expandAllDayInstances fuel evs start stop)

/-- `stopsAtB iter rE i` holds when the recurring loop, arriving at stream
position `i`, stops there: the rule is exhausted or the produced date
exceeds the range end. -/
def stopsAtB (iter : Nat → Option Nat) (rE i : Nat) : Bool :=
  match iter i with
  | none => true
  | some occ => decide (rE < occ)

/-- Concrete event for boundary analysis: non-recurring all-day event
covering days 2, 3 and 4 (DTSTART day 2, DTEND day 5). -/
def evSpan : VEvent :=
  { isDate := true
    startDate := 2 * dayMs
    endDate := some (5 * dayMs)
    rrule := none
    summary := some "A"
    location := none
    uid := none }

/-- Concrete event for boundary analysis: non-recurring all-day one-day
event on day 3 (no DTEND). -/
def evLate : VEvent :=
  { isDate := true
    startDate := 3 * dayMs
    endDate := none
    rrule := none
    summary := none
    location := none
    uid := none }

/-- Concrete event: non-recurring all-day one-day event on day 1. -/
def evDefault : VEvent :=
  { isDate := true
    startDate := dayMs
    endDate := none
    rrule := none
    summary := none
    location := some "Hall"
    uid := some "u1" }

/-- Concrete daily recurrence stream: occurrence `i` is midnight of day
`i + 1`. -/
def iterDaily : Nat → Option Nat := fun i => some ((i + 1) * dayMs)

/-- Concrete recurring all-day event using `iterDaily`. -/
def evRecurring : VEvent :=
  { isDate := true
    startDate := dayMs
    endDate := none
    rrule := some iterDaily
    summary := some "R"
    location := none
    uid := some "u2" }

/-! ### Basic facts about the timeline model -/

theorem dayMs_pos : 0 < dayMs := by decide

theorem startOfDay_le (t : Nat) : startOfDay t ≤ t := by
  simp only [startOfDay, dayMs]
  omega

theorem le_endOfDay (t : Nat) : t ≤ endOfDay t := by
  simp only [endOfDay, startOfDay, dayMs]
  omega

theorem startOfDay_idem (t : Nat) : startOfDay (startOfDay t) = startOfDay t := by
  simp only [startOfDay, dayMs]
  omega

theorem startOfDay_mono {s t : Nat} (h : s ≤ t) : startOfDay s ≤ startOfDay t := by
  simp only [startOfDay, dayMs] at h ⊢
  omega

theorem toISODate_startOfDay (t : Nat) : toISODate (startOfDay t) = toISODate t := by
  simp only [toISODate, startOfDay, dayMs]
  omega

theorem toISODate_mono {s t : Nat} (h : s ≤ t) : toISODate s ≤ toISODate t := by
  simp only [toISODate, dayMs] at h ⊢
  omega

/-- The gas supplied to `dayLoopAux` does not matter as long as it covers
the distance to the bound. -/
theorem dayLoopAux_congr (ev : VEvent) :
    ∀ g g' d last, last - d ≤ g → last - d ≤ g' →
      dayLoopAux ev g d last = dayLoopAux ev g' d last := by
  intro g
  induction g with
  | zero =>
    intro g' d last hg hg'
    have hnot : ¬ d < last := by omega
    cases g' with
    | zero => rfl
    | succ k => simp [dayLoopAux, hnot]
  | succ g ih =>
    intro g' d last hg hg'
    cases g' with
    | zero =>
      have hnot : ¬ d < last := by omega
      simp [dayLoopAux, hnot]
    | succ k =>
      by_cases hd : d < last
      · have hdm := dayMs_pos
        simp only [dayLoopAux, if_pos hd]
        have := ih k (d + dayMs) last (by omega) (by omega)
        rw [this]
      · simp [dayLoopAux, hd]

/-- The source `while (d < last)` loop equation for `dayLoop`. -/
theorem dayLoop_unfold (ev : VEvent) (d last : Nat) :
    dayLoop ev d last =
      if d < last then mkRecord ev (toISODate d) :: dayLoop ev (d + dayMs) last
      else [] := by
  by_cases hd : d < last
  · have h1 : last - d = (last - d - 1) + 1 := by omega
    rw [dayLoop, h1]
    simp only [dayLoopAux, if_pos hd]
    have hdm := dayMs_pos
    have := dayLoopAux_congr ev (last - d - 1) (last - (d + dayMs)) (d + dayMs) last
      (by omega) (by omega)
    rw [this]
    rfl
  · rw [dayLoop]
    have h0 : last - d = 0 := by omega
    rw [h0, if_neg hd]
    rfl

theorem dayLoop_eq_nil (ev : VEvent) {d last : Nat} (h : ¬ d < last) :
    dayLoop ev d last = [] := by
  rw [dayLoop_unfold, if_neg h]

/-! ### Range Resolver: `termRange` -/

/-- C7: evaluation of the code at a prototype-chain name.  The claim says
`termRange` fails with `UnknownPeriod` for every name outside the three
configured ones, but `"toString"` — which is none of them — does not
throw: the bracket lookup `TERMS["toString"]` finds the truthy inherited
`Object.prototype.toString`, the `if (!t)` guard does not fire, spreading
the undefined `t.start`/`t.end` leaves only `{year}`, and `termRange`
returns the one-day interval Jan 1 .. Jan 1 of the requested year. -/
theorem termRange_prototype_no_error :
    ("toString" = "Michaelmas" ∨ "toString" = "Lent" ∨ "toString" = "Summer" →
      False) ∧
    termRange 2025 "toString" = .ok (⟨2025, 1, 1, 0⟩, ⟨2025, 1, 1, dayMs - 1⟩) := by
  exact ⟨by simp, rfl⟩

/-- C8: for every year and every configured term name, `termRange`
returns an interval whose start is at most its end (Luxon wall-clock
comparison) and whose start and end both carry the requested year. -/
theorem termRange_valid_interval (year : Int) (name : String)
    (h : name = "Michaelmas" ∨ name = "Lent" ∨ name = "Summer") :
    ∃ s e, termRange year name = .ok (s, e) ∧ ldtLe s e = true ∧
      s.year = year ∧ e.year = year := by
  rcases h with h | h | h <;> subst h <;>
    exact ⟨_, _, rfl, by simp [ldtLe], rfl, rfl⟩

/-- Witness for C8 at year 2025 and the name "Summer". -/
theorem termRange_valid_interval_witness :
    ("Summer" = "Michaelmas" ∨ "Summer" = "Lent" ∨ "Summer" = "Summer") ∧
    ∃ s e, termRange 2025 "Summer" = .ok (s, e) ∧ ldtLe s e = true ∧
      s.year = 2025 ∧ e.year = 2025 :=
  ⟨by simp, termRange_valid_interval 2025 "Summer" (by simp)⟩

/-! ### Event Expander: boundary behaviour of the non-recurring branch -/

/-- C1: evaluation of the code at a concrete input showing the end
boundary off by one day.  Interval = days 0..2 (start instant 0, end
instant the last millisecond of day 2); `evSpan` is a non-recurring
all-day event spanning days 2..4.  The claim says no record may be dated
after the interval end's day (day 2), but the code also emits a record
dated day 3, because the clip bound is `end.endOf('day').plus({days:1})`
(last millisecond of day 3) rather than the start of day 3. -/
theorem expand_end_clip_overshoot :
    toISODate (3 * dayMs - 1) = 2 ∧
    (expandAllDayInstances 0 [evSpan] 0 (3 * dayMs - 1)).map Record.date = [2, 3] := by
  decide

/-- C2: evaluation of the code at a concrete input showing that an event
entirely outside the interval still produces a record.  `evLate` starts at
day 3, after the interval end instant (last millisecond of day 2), so it
does not overlap the interval, yet the code emits one record dated
day 3. -/
theorem expand_out_of_range_emission :
    3 * dayMs - 1 ≤ evLate.startDate ∧
    expandAllDayInstances 0 [evLate] 0 (3 * dayMs - 1) = [mkRecord evLate 3] := by
  decide

/-- C3 counterexample: the overlap test of `countMultiDayAllDayEvents` is
not the test that decides whether expansion emits at least one record:
`evLate` fails the overlap test for the interval days 0..2, yet
`expandAllDayInstances` emits a record for it. -/
theorem overlap_test_not_equivalent :
    overlapsWindow 0 (3 * dayMs - 1) evLate = false ∧
    expandAllDayInstances 0 [evLate] 0 (3 * dayMs - 1) ≠ [] := by
  decide

/-- C5: a non-recurring all-day event with no explicit end date whose
(day-aligned) start lies on a day of the interval expands to exactly one
record, dated at the event's start day. -/
theorem expand_default_duration_single_record
    (fuel start stop : Nat) (ev : VEvent)
    (hAll : ev.isDate = true) (hRec : ev.rrule = none) (hEnd : ev.endDate = none)
    (hAligned : startOfDay ev.startDate = ev.startDate)
    (hLo : startOfDay start ≤ ev.startDate) (hHi : ev.startDate ≤ stop) :
    expandAllDayInstances fuel [ev] start stop = [mkRecord ev (toISODate ev.startDate)] := by
  have hdm := dayMs_pos
  simp only [expandAllDayInstances, List.foldl_cons, List.foldl_nil, List.nil_append]
  simp only [expandEvent, isAllDayEvent, hAll, hRec, effectiveEnd, hEnd, Option.getD_none]
  have h1 : max (startOfDay ev.startDate) (startOfDay (startOfDay start)) = ev.startDate := by
    rw [startOfDay_idem, hAligned]
    exact Nat.max_eq_left hLo
  have h2 : min (ev.startDate + dayMs) (endOfDay stop + dayMs) = ev.startDate + dayMs := by
    have := le_endOfDay stop
    exact Nat.min_eq_left (by omega)
  simp only [Bool.true_eq_false, if_false, h1, h2]
  rw [dayLoop_unfold, if_pos (by omega), dayLoop_unfold, if_neg (by omega)]

/-- Witness for C5: `evDefault` starts on day 1 of the interval days 0..2
and yields exactly the one record dated day 1. -/
theorem expand_default_duration_single_record_witness :
    (evDefault.isDate = true ∧ evDefault.rrule = none ∧ evDefault.endDate = none ∧
     startOfDay evDefault.startDate = evDefault.startDate ∧
     startOfDay 0 ≤ evDefault.startDate ∧ evDefault.startDate ≤ 2 * dayMs) ∧
    expandAllDayInstances 7 [evDefault] 0 (2 * dayMs) =
      [mkRecord evDefault (toISODate evDefault.startDate)] :=
  ⟨⟨rfl, rfl, rfl, by decide, by decide, by decide⟩,
   expand_default_duration_single_record 7 0 (2 * dayMs) evDefault rfl rfl rfl
     (by decide) (by decide) (by decide)⟩

/-! ### Unfolding and membership lemmas for the expansion loops -/

theorem recurLoop_succ_none (ev : VEvent) (iter : Nat → Option Nat)
    (rS rE fuel i : Nat) (h : iter i = none) :
    recurLoop ev iter rS rE (fuel + 1) i = [] := by
  simp [recurLoop, h]

theorem recurLoop_succ_some (ev : VEvent) (iter : Nat → Option Nat)
    (rS rE fuel i occ : Nat) (h : iter i = some occ) :
    recurLoop ev iter rS rE (fuel + 1) i =
      if occ < rS then recurLoop ev iter rS rE fuel (i + 1)
      else if rE < occ then []
      else mkRecord ev (toISODate occ) :: recurLoop ev iter rS rE fuel (i + 1) := by
  simp [recurLoop, h]

theorem expandEvent_not_allday (fuel rS rE : Nat) (ev : VEvent)
    (h : ev.isDate = false) : expandEvent fuel rS rE ev = [] := by
  simp [expandEvent, isAllDayEvent, h]

theorem expandEvent_recurring (fuel rS rE : Nat) (ev : VEvent)
    (iter : Nat → Option Nat) (h : ev.isDate = true) (hr : ev.rrule = some iter) :
    expandEvent fuel rS rE ev = recurLoop ev iter rS rE fuel 0 := by
  simp [expandEvent, isAllDayEvent, h, hr]

theorem expandEvent_nonrecurring (fuel rS rE : Nat) (ev : VEvent)
    (h : ev.isDate = true) (hr : ev.rrule = none) :
    expandEvent fuel rS rE ev =
      dayLoop ev (max (startOfDay ev.startDate) (startOfDay rS))
        (min (effectiveEnd ev) (rE + dayMs)) := by
  simp [expandEvent, isAllDayEvent, h, hr]

theorem recurLoop_mem (ev : VEvent) (iter : Nat → Option Nat) (rS rE : Nat) :
    ∀ fuel i r, r ∈ recurLoop ev iter rS rE fuel i →
      ∃ occ, rS ≤ occ ∧ occ ≤ rE ∧ r = mkRecord ev (toISODate occ) := by
  intro fuel
  induction fuel with
  | zero => intro i r h; simp [recurLoop] at h
  | succ fuel ih =>
    intro i r h
    rcases hit : iter i with _ | occ
    · rw [recurLoop_succ_none ev iter rS rE fuel i hit] at h
      simp at h
    · rw [recurLoop_succ_some ev iter rS rE fuel i occ hit] at h
      split_ifs at h with h1 h2
      · exact ih (i + 1) r h
      · simp at h
      · rcases List.mem_cons.mp h with hh | hh
        · exact ⟨occ, by omega, by omega, hh⟩
        · exact ih (i + 1) r hh

theorem dayLoopAux_mem (ev : VEvent) :
    ∀ gas d last r, r ∈ dayLoopAux ev gas d last →
      ∃ x, d ≤ x ∧ x < last ∧ r = mkRecord ev (toISODate x) := by
  intro gas
  induction gas with
  | zero => intro d last r h; simp [dayLoopAux] at h
  | succ gas ih =>
    intro d last r h
    simp only [dayLoopAux] at h
    split_ifs at h with hd
    · rcases List.mem_cons.mp h with hh | hh
      · exact ⟨d, Nat.le_refl d, hd, hh⟩
      · obtain ⟨x, hx1, hx2, hx3⟩ := ih (d + dayMs) last r hh
        exact ⟨x, by omega, hx2, hx3⟩
    · simp at h

theorem dayLoop_mem (ev : VEvent) (d last : Nat) (r : Record)
    (h : r ∈ dayLoop ev d last) :
    ∃ x, d ≤ x ∧ x < last ∧ r = mkRecord ev (toISODate x) :=
  dayLoopAux_mem ev (last - d) d last r h

theorem expandEvent_mem (fuel rS rE : Nat) (ev : VEvent) (r : Record)
    (h : r ∈ expandEvent fuel rS rE ev) :
    ∃ x, startOfDay rS ≤ x ∧ r = mkRecord ev (toISODate x) := by
  rcases hall : ev.isDate with _ | _
  · rw [expandEvent_not_allday fuel rS rE ev hall] at h
    simp at h
  · rcases hrr : ev.rrule with _ | iter
    · rw [expandEvent_nonrecurring fuel rS rE ev hall hrr] at h
      obtain ⟨x, hx1, hx2, hx3⟩ := dayLoop_mem ev _ _ r h
      refine ⟨x, ?_, hx3⟩
      have hmax : startOfDay rS ≤ max (startOfDay ev.startDate) (startOfDay rS) :=
        Nat.le_max_right _ _
      omega
    · rw [expandEvent_recurring fuel rS rE ev iter hall hrr] at h
      obtain ⟨occ, h1, h2, h3⟩ := recurLoop_mem ev iter rS rE fuel 0 r h
      exact ⟨occ, Nat.le_trans (startOfDay_le rS) h1, h3⟩

theorem foldl_append_eq_flatMap (f : VEvent → List Record) :
    ∀ (l : List VEvent) (acc : List Record),
      l.foldl (fun a ev => a ++ f ev) acc = acc ++ l.flatMap f := by
  intro l
  induction l with
  | nil => intro acc; simp
  | cons ev t ih => intro acc; simp [ih]

theorem expandAllDayInstances_eq_flatMap (fuel : Nat) (events : List VEvent)
    (start stop : Nat) :
    expandAllDayInstances fuel events start stop =
      events.flatMap (expandEvent fuel (startOfDay start) (endOfDay stop)) := by
  simp [expandAllDayInstances, foldl_append_eq_flatMap]

/-! ### Invariants of the expansion output -/

/-- C10: every record produced by `expandAllDayInstances` — from either
the recurring or the non-recurring branch of any event — is dated on or
after the calendar day of `interval.start`. -/
theorem expand_lower_bound_invariant
    (fuel : Nat) (events : List VEvent) (start stop : Nat) (hse : start ≤ stop) :
    ∀ r ∈ expandAllDayInstances fuel events start stop, toISODate start ≤ r.date := by
  intro r hr
  rw [expandAllDayInstances_eq_flatMap] at hr
  obtain ⟨ev, hev, hrev⟩ := List.mem_flatMap.mp hr
  obtain ⟨x, hx1, hx2⟩ := expandEvent_mem _ _ _ _ _ hrev
  subst hx2
  simp only [mkRecord]
  calc toISODate start = toISODate (startOfDay (startOfDay start)) := by
        rw [startOfDay_idem, toISODate_startOfDay]
    _ ≤ toISODate x := toISODate_mono hx1

/-- Witness for C10 on a two-event calendar over interval days 0..2. -/
theorem expand_lower_bound_invariant_witness :
    (0 : Nat) ≤ 3 * dayMs - 1 ∧
    ∀ r ∈ expandAllDayInstances 1 [evSpan, evDefault] 0 (3 * dayMs - 1),
      toISODate 0 ≤ r.date :=
  ⟨by decide,
   expand_lower_bound_invariant 1 [evSpan, evDefault] 0 (3 * dayMs - 1) (by decide)⟩

/-- C6: the parse-then-expand pipeline either propagates the `ParseError`
unchanged, producing no records, or succeeds with the complete per-event
expansion of every decoded event (no partial result); and every record of
a decoded event takes its title, location and uid from the event with an
empty-string default when the property is absent, never failing. -/
theorem expand_failfast_and_defaults
    (parsed : Except ParseError (List VEvent)) (fuel start stop : Nat) :
    (∀ err, parsed = .error err →
      expandAllDayInstancesE parsed fuel start stop = .error err) ∧
    (∀ evs, parsed = .ok evs →
      expandAllDayInstancesE parsed fuel start stop =
        .ok (evs.flatMap (expandEvent fuel (startOfDay start) (endOfDay stop)))) ∧
    (∀ evs, parsed = .ok evs → ∀ ev ∈ evs,
      ∀ r ∈ expandEvent fuel (startOfDay start) (endOfDay stop) ev,
        r.title = ev.summary.getD "" ∧ r.location = ev.location.getD "" ∧
        r.uid = ev.uid.getD "") := by
  refine ⟨?_, ?_, ?_⟩
  · intro err h
    subst h
    rfl
  · intro evs h
    subst h
    simp [expandAllDayInstancesE, expandAllDayInstances_eq_flatMap]
  · intro evs h ev hev r hr
    obtain ⟨x, hx1, hx2⟩ := expandEvent_mem _ _ _ _ _ hr
    subst hx2
    exact ⟨rfl, rfl, rfl⟩

/-- Witness for C6: a failed parse propagates its error; a successful
parse of a calendar holding `evLate` (which has no summary, location or
uid) yields the complete expansion, all records using empty-string
defaults. -/
theorem expand_failfast_and_defaults_witness :
    (expandAllDayInstancesE (.error ⟨"Invalid ICS"⟩) 1 0 (2 * dayMs) =
      .error ⟨"Invalid ICS"⟩) ∧
    (expandAllDayInstancesE (.ok [evLate]) 1 0 (2 * dayMs) =
      .ok ([evLate].flatMap (expandEvent 1 (startOfDay 0) (endOfDay (2 * dayMs))))) ∧
    ∀ r ∈ expandEvent 1 (startOfDay 0) (endOfDay (2 * dayMs)) evLate,
      r.title = "" ∧ r.location = "" ∧ r.uid = "" :=
  ⟨(expand_failfast_and_defaults (.error ⟨"Invalid ICS"⟩) 1 0 (2 * dayMs)).1 _ rfl,
   (expand_failfast_and_defaults (.ok [evLate]) 1 0 (2 * dayMs)).2.1 [evLate] rfl,
   fun r hr =>
     (expand_failfast_and_defaults (.ok [evLate]) 1 0 (2 * dayMs)).2.2 [evLate] rfl
       evLate (by simp) r hr⟩

/-! ### The recurring branch: cutoff of the occurrence stream -/

theorem filter_cons_true {α : Type} (p : α → Bool) (a : α) (l : List α)
    (h : p a = true) : List.filter p (a :: l) = a :: List.filter p l := by
  simp [List.filter_cons, h]

theorem filter_cons_false {α : Type} (p : α → Bool) (a : α) (l : List α)
    (h : p a = false) : List.filter p (a :: l) = List.filter p l := by
  simp [List.filter_cons, h]

/-- A strictly increasing occurrence stream reaches a stopping position
within the first `rE + 2` stream elements. -/
theorem stops_exists (iter : Nat → Option Nat) (rE : Nat)
    (hmono : ∀ i j a b, i < j → iter i = some a → iter j = some b → a < b) :
    ∃ i, stopsAtB iter rE i = true := by
  by_cases hall : ∀ j, j ≤ rE + 1 → (iter j).isSome = true
  · have hgrow : ∀ i, i ≤ rE + 1 → ∀ a, iter i = some a → i ≤ a := by
      intro i
      induction i with
      | zero => intro _ a _; exact Nat.zero_le a
      | succ k ih =>
        intro hk a ha
        have hk2 : k ≤ rE + 1 := by omega
        have hsome := hall k hk2
        rcases hbk : iter k with _ | b
        · rw [hbk] at hsome; simp at hsome
        · have h1 := hmono k (k + 1) b a (by omega) hbk ha
          have h2 := ih hk2 b hbk
          omega
    have hsome := hall (rE + 1) (Nat.le_refl _)
    rcases hb : iter (rE + 1) with _ | a
    · rw [hb] at hsome; simp at hsome
    · have ha := hgrow (rE + 1) (Nat.le_refl _) a hb
      refine ⟨rE + 1, ?_⟩
      simp [stopsAtB, hb]
      omega
  · push_neg at hall
    obtain ⟨j, hj, hnone⟩ := hall
    refine ⟨j, ?_⟩
    rcases hb : iter j with _ | a
    · simp [stopsAtB, hb]
    · rw [hb] at hnone; simp at hnone

/-- Once the stream is exhausted it stays exhausted. -/
theorem none_chain (iter : Nat → Option Nat)
    (hstops : ∀ i, iter i = none → iter (i + 1) = none)
    {N : Nat} (h : iter N = none) : ∀ k, iter (N + k) = none := by
  intro k
  induction k with
  | zero => exact h
  | succ k ih => exact hstops (N + k) ih

/-- The least stopping position `N` of a strictly increasing occurrence
stream: every earlier element is a date within the range end, and every
element from `N` on (if any) exceeds the range end. -/
theorem cutoff_spec (iter : Nat → Option Nat) (rE : Nat)
    (hmono : ∀ i j a b, i < j → iter i = some a → iter j = some b → a < b)
    (hstops : ∀ i, iter i = none → iter (i + 1) = none) :
    ∃ N, stopsAtB iter rE N = true ∧
      (∀ i, i < N → ∃ occ, iter i = some occ ∧ occ ≤ rE) ∧
      (∀ i occ, N ≤ i → iter i = some occ → rE < occ) := by
  have hex : ∃ n, stopsAtB iter rE n = true := stops_exists iter rE hmono
  refine ⟨Nat.find hex, Nat.find_spec hex, ?_, ?_⟩
  · intro i hi
    have hns := Nat.find_min hex hi
    rcases hb : iter i with _ | occ
    · simp [stopsAtB, hb] at hns
    · simp [stopsAtB, hb] at hns
      exact ⟨occ, rfl, by omega⟩
  · intro i occ hNi hocc
    have hfind := Nat.find_spec hex
    rcases hbN : iter (Nat.find hex) with _ | vN
    · have hnone : iter i = none := by
        have := none_chain iter hstops hbN (i - Nat.find hex)
        rwa [Nat.add_sub_cancel' hNi] at this
      rw [hnone] at hocc
      exact absurd hocc (by simp)
    · have hrE : rE < vN := by
        simp [stopsAtB, hbN] at hfind
        exact hfind
      rcases Nat.eq_or_lt_of_le hNi with heq | hlt
      · rw [← heq, hbN] at hocc
        injection hocc with hv
        omega
      · have := hmono (Nat.find hex) i vN occ hlt hbN hocc
        omega

/-- Exact description of the recurring loop given enough fuel: starting
at stream position `i` at most `N`, it emits one record per occurrence at
positions `i..N-1` that is not before the range start, in stream order,
and consumes nothing at or beyond the stopping position `N`. -/
theorem recurLoop_eq (ev : VEvent) (iter : Nat → Option Nat) (rS rE N : Nat)
    (hRS : rS ≤ rE + 1)
    (hN : stopsAtB iter rE N = true)
    (hlt : ∀ i, i < N → ∃ occ, iter i = some occ ∧ occ ≤ rE) :
    ∀ fuel i, i ≤ N → N < i + fuel →
      recurLoop ev iter rS rE fuel i =
        (((List.range' i (N - i)).filterMap iter).filter
            (fun o => decide (rS ≤ o))).map (fun o => mkRecord ev (toISODate o)) := by
  intro fuel
  induction fuel with
  | zero => intro i h1 h2; omega
  | succ fuel ih =>
    intro i h1 h2
    rcases Nat.eq_or_lt_of_le h1 with heq | hiN
    · subst heq
      rw [Nat.sub_self]
      simp only [List.range', List.filterMap_nil, List.filter_nil, List.map_nil]
      rcases hb : iter i with _ | occ
      · rw [recurLoop_succ_none _ _ _ _ _ _ hb]
      · have hgt : rE < occ := by
          simp [stopsAtB, hb] at hN
          exact hN
        rw [recurLoop_succ_some _ _ _ _ _ _ _ hb, if_neg (by omega), if_pos hgt]
    · obtain ⟨occ, hoc, hle⟩ := hlt i hiN
      have hrange : N - i = (N - (i + 1)) + 1 := by omega
      rw [hrange, List.range'_succ, recurLoop_succ_some _ _ _ _ _ _ _ hoc]
      simp only [List.filterMap_cons, hoc]
      by_cases h3 : occ < rS
      · rw [if_pos h3]
        have hfilter : (fun o => decide (rS ≤ o)) occ = false := by simp; omega
        rw [filter_cons_false (fun o => decide (rS ≤ o)) occ _ hfilter]
        exact ih (i + 1) (by omega) (by omega)
      · rw [if_neg h3, if_neg (by omega)]
        have hfilter : (fun o => decide (rS ≤ o)) occ = true := by simp; omega
        rw [filter_cons_true (fun o => decide (rS ≤ o)) occ _ hfilter, List.map_cons]
        rw [ih (i + 1) (by omega) (by omega)]

/-- C4: for a recurring all-day event whose rule produces a strictly
increasing occurrence stream (exhausted streams stay exhausted), there is
a cutoff `N` such that the first `N` occurrences are the ones not past
`interval.end`, all later ones (if any) are past it, and — for any
sufficient fuel — expansion emits exactly one single-day record per
occurrence within `[interval.start, interval.end]`, dated at that
occurrence's calendar day, in stream order: occurrences before
`interval.start` are skipped and iteration stops at the first occurrence
past `interval.end`.  The event's end date plays no role (a recurring
event never contributes a multi-day span). -/
theorem expand_recurring_characterization
    (start stop : Nat) (ev : VEvent) (iter : Nat → Option Nat)
    (hAll : ev.isDate = true) (hR : ev.rrule = some iter)
    (hmono : ∀ i j a b, i < j → iter i = some a → iter j = some b → a < b)
    (hstops : ∀ i, iter i = none → iter (i + 1) = none)
    (hs : startOfDay start = start) (he : endOfDay stop = stop) (hse : start ≤ stop) :
    ∃ N, (∀ i, i < N → ∃ occ, iter i = some occ ∧ occ ≤ stop) ∧
      (∀ i occ, N ≤ i → iter i = some occ → stop < occ) ∧
      ∀ fuel, N < fuel →
        expandAllDayInstances fuel [ev] start stop =
          (((List.range N).filterMap iter).filter
              (fun o => decide (start ≤ o))).map (fun o => mkRecord ev (toISODate o)) := by
  obtain ⟨N, hN, hlt, hge⟩ := cutoff_spec iter stop hmono hstops
  refine ⟨N, hlt, hge, ?_⟩
  intro fuel hfuel
  have hexp : expandAllDayInstances fuel [ev] start stop =
      expandEvent fuel (startOfDay start) (endOfDay stop) ev := by
    rw [expandAllDayInstances_eq_flatMap]
    simp
  rw [hexp, hs, he, expandEvent_recurring fuel start stop ev iter hAll hR,
    List.range_eq_range']
  have hmain := recurLoop_eq ev iter start stop N (by omega) hN hlt fuel 0
    (Nat.zero_le N) (by omega)
  rw [Nat.sub_zero] at hmain
  exact hmain

/-- Witness for C4: daily recurrence (occurrence `i` at midnight of day
`i + 1`) over the interval days 0..2. -/
theorem expand_recurring_characterization_witness :
    (evRecurring.isDate = true ∧ evRecurring.rrule = some iterDaily ∧
     startOfDay 0 = 0 ∧ endOfDay (3 * dayMs - 1) = 3 * dayMs - 1 ∧
     (0 : Nat) ≤ 3 * dayMs - 1) ∧
    ∃ N, (∀ i, i < N → ∃ occ, iterDaily i = some occ ∧ occ ≤ 3 * dayMs - 1) ∧
      (∀ i occ, N ≤ i → iterDaily i = some occ → 3 * dayMs - 1 < occ) ∧
      ∀ fuel, N < fuel →
        expandAllDayInstances fuel [evRecurring] 0 (3 * dayMs - 1) =
          (((List.range N).filterMap iterDaily).filter
              (fun o => decide (0 ≤ o))).map
            (fun o => mkRecord evRecurring (toISODate o)) :=
  ⟨⟨rfl, rfl, by decide, by decide, by decide⟩,
   expand_recurring_characterization 0 (3 * dayMs - 1) evRecurring iterDaily rfl rfl
     (by
       intro i j a b hij ha hb
       simp only [iterDaily, Option.some.injEq] at ha hb
       subst ha
       subst hb
       exact Nat.mul_lt_mul_of_lt_of_le (by omega) (Nat.le_refl dayMs) dayMs_pos)
     (by intro i h; simp [iterDaily] at h)
     (by decide) (by decide) (by decide)⟩

/-- C9: for a recurring all-day event with a strictly increasing
occurrence stream, the expansion loop stabilizes after consuming finitely
many occurrences: there is a cutoff `N` — the position of the first
generated date exceeding the range end (all earlier dates are within it)
— such that every fuel bound above `N` produces the same result as fuel
`N + 1`; the unbounded stream is never consumed beyond position `N`. -/
theorem recurring_iteration_stabilizes
    (start stop : Nat) (ev : VEvent) (iter : Nat → Option Nat)
    (hAll : ev.isDate = true) (hR : ev.rrule = some iter)
    (hmono : ∀ i j a b, i < j → iter i = some a → iter j = some b → a < b)
    (hstops : ∀ i, iter i = none → iter (i + 1) = none)
    (hwin : startOfDay start ≤ endOfDay stop + 1) :
    ∃ N, (∀ i, i < N → ∃ occ, iter i = some occ ∧ occ ≤ endOfDay stop) ∧
      ∀ fuel, N < fuel →
        expandAllDayInstances fuel [ev] start stop =
          expandAllDayInstances (N + 1) [ev] start stop := by
  obtain ⟨N, hN, hlt, hge⟩ := cutoff_spec iter (endOfDay stop) hmono hstops
  refine ⟨N, hlt, ?_⟩
  intro fuel hfuel
  have hexp : ∀ f : Nat, expandAllDayInstances f [ev] start stop =
      recurLoop ev iter (startOfDay start) (endOfDay stop) f 0 := by
    intro f
    rw [expandAllDayInstances_eq_flatMap]
    simp [expandEvent_recurring f _ _ ev iter hAll hR]
  rw [hexp fuel, hexp (N + 1),
    recurLoop_eq ev iter _ _ N hwin hN hlt fuel 0 (Nat.zero_le N) (by omega),
    recurLoop_eq ev iter _ _ N hwin hN hlt (N + 1) 0 (Nat.zero_le N) (by omega)]

/-- Witness for C9 with the daily stream over the interval days 0..2. -/
theorem recurring_iteration_stabilizes_witness :
    (evRecurring.isDate = true ∧ evRecurring.rrule = some iterDaily ∧
     startOfDay 0 ≤ endOfDay (3 * dayMs - 1) + 1) ∧
    ∃ N, (∀ i, i < N → ∃ occ, iterDaily i = some occ ∧ occ ≤ endOfDay (3 * dayMs - 1)) ∧
      ∀ fuel, N < fuel →
        expandAllDayInstances fuel [evRecurring] 0 (3 * dayMs - 1) =
          expandAllDayInstances (N + 1) [evRecurring] 0 (3 * dayMs - 1) :=
  ⟨⟨rfl, rfl, by decide⟩,
   recurring_iteration_stabilizes 0 (3 * dayMs - 1) evRecurring iterDaily rfl rfl
     (by
       intro i j a b hij ha hb
       simp only [iterDaily, Option.some.injEq] at ha hb
       subst ha
       subst hb
       exact Nat.mul_lt_mul_of_lt_of_le (by omega) (Nat.le_refl dayMs) dayMs_pos)
     (by intro i h; simp [iterDaily] at h)
     (by decide)⟩

/-! ### Multi-day counting -/

/-- The counting fold of `countMultiDayAllDayEvents` counts exactly the
events passing all four checks. -/
theorem count_foldl_acc (start stop : Nat) :
    ∀ (l : List VEvent) (acc : Nat),
      l.foldl (fun multiDay ev =>
        if isAllDayEvent ev = false then multiDay
        else if ev.rrule.isSome = true then multiDay
        else if overlapsWindow start stop ev = false then multiDay
        else if dayMs < effectiveEnd ev - startOfDay ev.startDate then multiDay + 1
        else multiDay) acc =
      acc + (l.filter (fun ev => isAllDayEvent ev && !ev.rrule.isSome &&
        overlapsWindow start stop ev &&
        decide (dayMs < effectiveEnd ev - startOfDay ev.startDate))).length := by
  intro l
  induction l with
  | nil => intro acc; simp
  | cons ev t ih =>
    intro acc
    rw [List.foldl_cons, ih]
    rcases h1 : isAllDayEvent ev with _ | _
    · simp [List.filter_cons, h1]
    · rcases hr : ev.rrule with _ | it
      · rcases h3 : overlapsWindow start stop ev with _ | _
        · simp [List.filter_cons, h1, hr, h3]
        · by_cases h4 : dayMs < effectiveEnd ev - startOfDay ev.startDate
          · simp [List.filter_cons, h1, hr, h3, h4]
            omega
          · simp [List.filter_cons, h1, hr, h3, h4]
      · simp [List.filter_cons, h1, hr]

/-- C3 (amended): `countMultiDayAllDayEvents` returns exactly the number
of source events that are all-day, non-recurring, pass its overlap test
(effective end after `interval.start` and start-of-day of the event start
before the end-of-day of `interval.end`) and have effective end minus
start-day exceeding one day; a recurring event is never counted; and, for
an event with its start before its effective end, passing the overlap
test implies the clipping of `expandAllDayInstances` yields at least one
record for that event (the converse fails: see the counterexample). -/
theorem countMultiDay_characterization
    (events : List VEvent) (start stop : Nat)
    (hs : startOfDay start = start) (he : endOfDay stop = stop) (hse : start ≤ stop) :
    countMultiDayAllDayEvents events start stop =
      (events.filter (fun ev => isAllDayEvent ev && !ev.rrule.isSome &&
        overlapsWindow start stop ev &&
        decide (dayMs < effectiveEnd ev - startOfDay ev.startDate))).length ∧
    (∀ ev, ev.rrule.isSome = true → countMultiDayAllDayEvents [ev] start stop = 0) ∧
    (∀ fuel ev, ev.isDate = true → ev.rrule = none →
      ev.startDate < effectiveEnd ev →
      overlapsWindow start stop ev = true →
      expandAllDayInstances fuel [ev] start stop ≠ []) := by
  refine ⟨?_, ?_, ?_⟩
  · have h := count_foldl_acc start stop events 0
    simpa [countMultiDayAllDayEvents] using h
  · intro ev h
    rcases h1 : isAllDayEvent ev with _ | _
    · simp [countMultiDayAllDayEvents, h1]
    · simp [countMultiDayAllDayEvents, h1, h]
  · intro fuel ev hAll hRec hwf hov
    rw [expandAllDayInstances_eq_flatMap]
    simp only [List.flatMap_cons, List.flatMap_nil, List.append_nil]
    rw [expandEvent_nonrecurring fuel _ _ ev hAll hRec]
    simp only [overlapsWindow, Bool.not_eq_true', Bool.or_eq_false_iff,
      decide_eq_false_iff_not] at hov
    rw [he] at hov
    have hd : max (startOfDay ev.startDate) (startOfDay (startOfDay start)) <
        min (effectiveEnd ev) (endOfDay stop + dayMs) := by
      have hs1 := startOfDay_le ev.startDate
      have hs2 := le_endOfDay stop
      rw [startOfDay_idem, hs]
      have hdm := dayMs_pos
      rcases hov with ⟨hov1, hov2⟩
      rw [Nat.max_lt, Nat.lt_min, Nat.lt_min]
      refine ⟨⟨by omega, by omega⟩, by omega, by omega⟩
    rw [dayLoop_unfold, if_pos hd]
    simp

/-- Witness for the amended C3 over a two-event calendar (one multi-day
non-recurring event, one recurring event) on the interval days 0..2. -/
theorem countMultiDay_characterization_witness :
    (startOfDay 0 = 0 ∧ endOfDay (3 * dayMs - 1) = 3 * dayMs - 1 ∧
     (0 : Nat) ≤ 3 * dayMs - 1) ∧
    (countMultiDayAllDayEvents [evSpan, evRecurring] 0 (3 * dayMs - 1) =
      ([evSpan, evRecurring].filter (fun ev => isAllDayEvent ev && !ev.rrule.isSome &&
        overlapsWindow 0 (3 * dayMs - 1) ev &&
        decide (dayMs < effectiveEnd ev - startOfDay ev.startDate))).length ∧
     (∀ ev, ev.rrule.isSome = true →
        countMultiDayAllDayEvents [ev] 0 (3 * dayMs - 1) = 0) ∧
     (∀ fuel ev, ev.isDate = true → ev.rrule = none →
        ev.startDate < effectiveEnd ev →
        overlapsWindow 0 (3 * dayMs - 1) ev = true →
        expandAllDayInstances fuel [ev] 0 (3 * dayMs - 1) ≠ [])) :=
  ⟨⟨by decide, by decide, by decide⟩,
   countMultiDay_characterization [evSpan, evRecurring] 0 (3 * dayMs - 1)
     (by decide) (by decide) (by decide)⟩

end TermPlanner
